import Mathlib

/-!
Verification of the RNAlysis enrichment module.

The Python source under `src/rnalysis/enrichment.py` defines the classes
`FeatureSet` and `RankedSet` together with their set operations and the entry
points of the enrichment analyses.  The statistical engine they delegate to
(`rnalysis.utils.enrichment_runner`) is not among the sources at hand; where a
property concerns that engine, the definitions below are modelled from the
specification and say so in their doc comment.  Everything else is translated
directly from `enrichment.py`.
-/

namespace RNAlysis

/-- A genomic feature identifier (a string in the source). -/
abbrev Gene := String

/-- The class `FeatureSet` of `enrichment.py`: an unordered set of feature
names plus a set name (slots `gene_set` and `set_name`). -/
structure FeatureSet where
  gene_set : Finset Gene
  set_name : String
  deriving DecidableEq

/-- The class `RankedSet` of `enrichment.py`: the ordered gene sequence
(slot `ranked_genes`) together with the slots inherited from `FeatureSet`. -/
structure RankedSet where
  ranked_genes : List Gene
  gene_set : Finset Gene
  set_name : String
  deriving DecidableEq

/-- The constructor `RankedSet.__init__` (enrichment.py lines 953-971) for a
list input: it stores the ranked sequence, lets the inherited constructor set
`gene_set` to the set of its elements, and then asserts
`len(self.ranked_genes) == len(self.gene_set)`; a failing assertion aborts the
construction, so the result is an `Except`. -/
def mkRankedSet (ranked_genes : List Gene) (set_name : String) : Except String RankedSet :=
  let gene_set := ranked_genes.toFinset
  if ranked_genes.length = gene_set.card then
    Except.ok ⟨ranked_genes, gene_set, set_name⟩
  else
    Except.error "ranked_genes must have no repeating elements!"

/-- An argument accepted by `FeatureSet._set_ops` (lines 139-146): a plain
python set or another `FeatureSet`; any other type raises immediately and is
outside the operations considered here. -/
inductive SetOperand where
  | raw (s : Finset Gene)
  | fs (f : FeatureSet)

/-- The conversion loop at the start of `_set_ops`: a `FeatureSet` operand is
replaced by its `gene_set`, a plain set is kept as is. -/
def SetOperand.toGeneSet : SetOperand → Finset Gene
  | .raw s => s
  | .fs f => f.gene_set

/-- The four python set functions `_set_ops` may receive as `op`. -/
inductive SetOp where
  | union
  | inter
  | diff
  | symdiff
  deriving DecidableEq

/-- Python `a.symmetric_difference(b)`: per the docstring of
`FeatureSet.symmetric_difference`, `(A-difference-B)-union-(B-difference-A)`. -/
def pySymmDiff (a b : Finset Gene) : Finset Gene := (a \ b) ∪ (b \ a)

/-- The call `op(self.gene_set, *others)` in `_set_ops` (lines 147-154).  The
variadic python set operations fold over the extra arguments;
`set.symmetric_difference` accepts exactly one extra argument and raises a
`TypeError` otherwise, which `_set_ops` re-raises with a message naming the
total number of objects given (`len(others) + 1`). -/
def applySetOp : SetOp → Finset Gene → List (Finset Gene) → Except String (Finset Gene)
  | .union, a, others => Except.ok (others.foldl (fun x y => x ∪ y) a)
  | .inter, a, others => Except.ok (others.foldl (fun x y => x ∩ y) a)
  | .diff, a, others => Except.ok (others.foldl (fun x y => x \ y) a)
  | .symdiff, a, [b] => Except.ok (pySymmDiff a b)
  | .symdiff, _, others =>
      Except.error ("Symmetric difference can only be calculated for two objects, "
        ++ toString (others.length + 1) ++ " were given!")

/-- `FeatureSet._set_ops` as a method in state-passing style: the python body
only reads `self.gene_set` and never assigns to `self`, so the receiver after
the call is returned unchanged next to the returned value (or raised error). -/
def FeatureSet.setOps (self : FeatureSet) (others : List SetOperand) (op : SetOp) :
    FeatureSet × Except String (Finset Gene) :=
  (self, applySetOp op self.gene_set (others.map SetOperand.toGeneSet))

/-- `FeatureSet.union` (lines 156-178): `FeatureSet(self._set_ops(others, set.union))`;
the freshly constructed result carries the constructor default `set_name` `""`. -/
def FeatureSet.union (self : FeatureSet) (others : List SetOperand) :
    FeatureSet × Except String FeatureSet :=
  ((self.setOps others .union).1,
    (self.setOps others .union).2.map (fun s => ⟨s, ""⟩))

/-- `FeatureSet.intersection` (lines 180-202). -/
def FeatureSet.intersection (self : FeatureSet) (others : List SetOperand) :
    FeatureSet × Except String FeatureSet :=
  ((self.setOps others .inter).1,
    (self.setOps others .inter).2.map (fun s => ⟨s, ""⟩))

/-- `FeatureSet.difference` (lines 204-226). -/
def FeatureSet.difference (self : FeatureSet) (others : List SetOperand) :
    FeatureSet × Except String FeatureSet :=
  ((self.setOps others .diff).1,
    (self.setOps others .diff).2.map (fun s => ⟨s, ""⟩))

/-- `FeatureSet.symmetric_difference` (lines 228-250): takes exactly one other
object and calls `self._set_ops((other,), set.symmetric_difference)`. -/
def FeatureSet.symmetric_difference (self : FeatureSet) (other : SetOperand) :
    FeatureSet × Except String FeatureSet :=
  ((self.setOps [other] .symdiff).1,
    (self.setOps [other] .symdiff).2.map (fun s => ⟨s, ""⟩))

/-- The `FeatureSet` view of a `RankedSet` (the slots inherited from the
parent class). -/
def RankedSet.toFeatureSet (self : RankedSet) : FeatureSet :=
  ⟨self.gene_set, self.set_name⟩

/-- `RankedSet._set_ops` (lines 995-998): emits a warning and then delegates
to `FeatureSet._set_ops` on the inherited `gene_set`. -/
def RankedSet.setOps (self : RankedSet) (others : List SetOperand) (op : SetOp) :
    RankedSet × Except String (Finset Gene) :=
  (self, applySetOp op self.gene_set (others.map SetOperand.toGeneSet))

/-- `RankedSet.union`: the method inherited from `FeatureSet`, so it wraps the
result of `_set_ops` in a plain `FeatureSet` — never in a `RankedSet`. -/
def RankedSet.union (self : RankedSet) (others : List SetOperand) :
    RankedSet × Except String FeatureSet :=
  ((self.setOps others .union).1,
    (self.setOps others .union).2.map (fun s => ⟨s, ""⟩))

/-- `RankedSet.intersection`: inherited from `FeatureSet`. -/
def RankedSet.intersection (self : RankedSet) (others : List SetOperand) :
    RankedSet × Except String FeatureSet :=
  ((self.setOps others .inter).1,
    (self.setOps others .inter).2.map (fun s => ⟨s, ""⟩))

/-- `RankedSet.difference`: inherited from `FeatureSet`. -/
def RankedSet.difference (self : RankedSet) (others : List SetOperand) :
    RankedSet × Except String FeatureSet :=
  ((self.setOps others .diff).1,
    (self.setOps others .diff).2.map (fun s => ⟨s, ""⟩))

/-- `RankedSet.symmetric_difference`: inherited from `FeatureSet`. -/
def RankedSet.symmetric_difference (self : RankedSet) (other : SetOperand) :
    RankedSet × Except String FeatureSet :=
  ((self.setOps [other] .symdiff).1,
    (self.setOps [other] .symdiff).2.map (fun s => ⟨s, ""⟩))

/-- The keyword parameters of `RankedSet.single_set_enrichment`
(enrichment.py lines 1230-1235), excluding `self`. -/
def singleSetEnrichmentParams : List String :=
  ["attributes", "alpha", "attr_ref_path", "return_nonsignificant", "save_csv",
   "fname", "return_fig", "plot_horizontal", "parallel", "gui_mode"]

/-- The keyword parameters of `RankedSet.single_set_go_enrichment`
(lines 1000-1020), excluding `self`. -/
def singleSetGoEnrichmentParams : List String :=
  ["organism", "gene_id_type", "alpha", "propagate_annotations", "aspects",
   "evidence_types", "excluded_evidence_types", "databases", "excluded_databases",
   "qualifiers", "excluded_qualifiers", "return_nonsignificant", "save_csv",
   "fname", "return_fig", "plot_horizontal", "plot_ontology_graph",
   "ontology_graph_format", "parallel", "gui_mode"]

/-- The keyword parameters of `RankedSet.single_set_kegg_enrichment`
(lines 1146-1152), excluding `self`. -/
def singleSetKeggEnrichmentParams : List String :=
  ["organism", "gene_id_type", "alpha", "return_nonsignificant", "save_csv",
   "fname", "return_fig", "plot_horizontal", "plot_pathway_graphs",
   "pathway_graphs_format", "parallel", "gui_mode"]

/-- CPython keyword-argument binding: a keyword that matches no parameter of
the callee is rejected with a `TypeError` before the body runs. -/
def bindKwargs (params : List String) (kwargs : List String) : Except String Unit :=
  match kwargs.find? (fun k => !params.contains k) with
  | some k => Except.error ("got an unexpected keyword argument " ++ k)
  | none => Except.ok ()

/-- A call to a single-set XL-mHG entry point with the given keyword-argument
names: binding happens before the body, so a rejected binding yields an error
and the enrichment computation never produces a result. -/
def callSingleSet (params : List String) (kwargs : List String) : Except String Unit :=
  match bindKwargs params kwargs with
  | Except.error e => Except.error e
  | Except.ok _ => Except.ok ()

theorem bind_rejects_of_not_param (params kwargs : List String) (kw : String)
    (hnp : params.contains kw = false) (hin : kw ∈ kwargs) :
    ∃ e, callSingleSet params kwargs = Except.error e := by
  have hsome : (kwargs.find? (fun k => !params.contains k)).isSome = true := by
    rw [List.find?_isSome]
    exact ⟨kw, hin, by rw [hnp]; rfl⟩
  unfold callSingleSet bindKwargs
  cases hf : kwargs.find? (fun k => !params.contains k) with
  | none => rw [hf] at hsome; cases hsome
  | some k => exact ⟨_, rfl⟩

/-- C6: every successfully constructed `RankedSet` has as many ranked genes as
its induced `gene_set` has elements (no repeated identifiers), and
constructing a `RankedSet` from a sequence with a duplicate identifier fails
(the assertion in `RankedSet.__init__` aborts the construction). -/
theorem rankedSet_invariant :
    (∀ l name rs, mkRankedSet l name = Except.ok rs →
      rs.ranked_genes.length = rs.gene_set.card) ∧
    (∀ l name, ¬ l.Nodup → ∃ e, mkRankedSet l name = Except.error e) := by
  constructor
  · intro l name rs h
    simp only [mkRankedSet] at h
    split at h
    · next hlen =>
        cases h
        exact hlen
    · cases h
  · intro l name hdup
    simp only [mkRankedSet]
    split
    · next hlen =>
        exfalso
        apply hdup
        have hsub := List.dedup_sublist l
        have hlen2 : l.dedup.length = l.length := by
          rw [List.card_toFinset] at hlen
          omega
        have hEq : l.dedup = l := hsub.eq_of_length hlen2
        rw [← hEq]
        exact List.nodup_dedup l
    · exact ⟨_, rfl⟩

/-- Witness for C6: `["a", "b"]` constructs successfully and satisfies the
invariant, while `["a", "a"]` (a duplicate identifier) fails. -/
theorem rankedSet_invariant_witness :
    (RankedSet.ranked_genes ⟨["a", "b"], (["a", "b"] : List Gene).toFinset, "s"⟩).length =
      (RankedSet.gene_set ⟨["a", "b"], (["a", "b"] : List Gene).toFinset, "s"⟩).card ∧
    ∃ e, mkRankedSet ["a", "a"] "s" = Except.error e :=
  ⟨rankedSet_invariant.1 ["a", "b"] "s" ⟨["a", "b"], (["a", "b"] : List Gene).toFinset, "s"⟩
      (by simp [mkRankedSet]),
    rankedSet_invariant.2 ["a", "a"] "s" (by decide)⟩

/-- C7: none of the three single-set XL-mHG entry points of `RankedSet`
declares a background parameter, so a call that supplies a
`background_genes` keyword is rejected at call binding — before the body can
compute anything — and produces no result. -/
theorem single_set_no_background (kwargs : List String)
    (hbg : "background_genes" ∈ kwargs) :
    (singleSetEnrichmentParams.contains "background_genes" = false ∧
     singleSetGoEnrichmentParams.contains "background_genes" = false ∧
     singleSetKeggEnrichmentParams.contains "background_genes" = false) ∧
    ((∃ e, callSingleSet singleSetEnrichmentParams kwargs = Except.error e) ∧
     (∃ e, callSingleSet singleSetGoEnrichmentParams kwargs = Except.error e) ∧
     (∃ e, callSingleSet singleSetKeggEnrichmentParams kwargs = Except.error e)) := by
  refine ⟨⟨by decide, by decide, by decide⟩, ?_, ?_, ?_⟩
  · exact bind_rejects_of_not_param _ _ _ (by decide) hbg
  · exact bind_rejects_of_not_param _ _ _ (by decide) hbg
  · exact bind_rejects_of_not_param _ _ _ (by decide) hbg

/-- Witness for C7: a call passing only `background_genes` is rejected by all
three single-set entry points. -/
theorem single_set_no_background_witness :
    (singleSetEnrichmentParams.contains "background_genes" = false ∧
     singleSetGoEnrichmentParams.contains "background_genes" = false ∧
     singleSetKeggEnrichmentParams.contains "background_genes" = false) ∧
    ((∃ e, callSingleSet singleSetEnrichmentParams ["background_genes"] = Except.error e) ∧
     (∃ e, callSingleSet singleSetGoEnrichmentParams ["background_genes"] = Except.error e) ∧
     (∃ e, callSingleSet singleSetKeggEnrichmentParams ["background_genes"] = Except.error e)) :=
  single_set_no_background ["background_genes"] (by decide)

/-- C8: the four set operations of `FeatureSet` leave the receiver unchanged —
after the call its `gene_set` and `set_name` equal their values before — and
on success they return a new `FeatureSet` (freshly constructed, with the
constructor default `set_name` of the empty string). -/
theorem featureSet_set_ops_frame (fs : FeatureSet) (others : List SetOperand)
    (other : SetOperand) :
    ((fs.union others).1.gene_set = fs.gene_set ∧
      (fs.union others).1.set_name = fs.set_name) ∧
    ((fs.intersection others).1.gene_set = fs.gene_set ∧
      (fs.intersection others).1.set_name = fs.set_name) ∧
    ((fs.difference others).1.gene_set = fs.gene_set ∧
      (fs.difference others).1.set_name = fs.set_name) ∧
    ((fs.symmetric_difference other).1.gene_set = fs.gene_set ∧
      (fs.symmetric_difference other).1.set_name = fs.set_name) ∧
    (∀ res, (fs.union others).2 = Except.ok res → res.set_name = "") ∧
    (∀ res, (fs.intersection others).2 = Except.ok res → res.set_name = "") ∧
    (∀ res, (fs.difference others).2 = Except.ok res → res.set_name = "") ∧
    (∀ res, (fs.symmetric_difference other).2 = Except.ok res → res.set_name = "") := by
  refine ⟨⟨rfl, rfl⟩, ⟨rfl, rfl⟩, ⟨rfl, rfl⟩, ⟨rfl, rfl⟩, ?_, ?_, ?_, ?_⟩
  · intro res h
    simp only [FeatureSet.union, FeatureSet.setOps, applySetOp, Except.map] at h
    cases h
    rfl
  · intro res h
    simp only [FeatureSet.intersection, FeatureSet.setOps, applySetOp, Except.map] at h
    cases h
    rfl
  · intro res h
    simp only [FeatureSet.difference, FeatureSet.setOps, applySetOp, Except.map] at h
    cases h
    rfl
  · intro res h
    simp only [FeatureSet.symmetric_difference, FeatureSet.setOps, applySetOp,
      List.map, Except.map] at h
    cases h
    rfl

/-- C9: every set operation on a `RankedSet` goes through the parent class and
returns a plain `FeatureSet` (the Lean result type records this), computed
from the unordered `gene_set` alone — two `RankedSet`s with the same
`gene_set` but different rank orders give identical results, so the rank
order of the operands is not preserved. -/
theorem rankedSet_set_ops_lose_rank (rs : RankedSet) (others : List SetOperand)
    (other : SetOperand) :
    ((rs.union others).2 = (rs.toFeatureSet.union others).2 ∧
     (rs.intersection others).2 = (rs.toFeatureSet.intersection others).2 ∧
     (rs.difference others).2 = (rs.toFeatureSet.difference others).2 ∧
     (rs.symmetric_difference other).2 = (rs.toFeatureSet.symmetric_difference other).2) ∧
    (∀ rs2 : RankedSet, rs.gene_set = rs2.gene_set →
      (rs.union others).2 = (rs2.union others).2) := by
  refine ⟨⟨rfl, rfl, rfl, rfl⟩, ?_⟩
  intro rs2 h
  simp only [RankedSet.union, RankedSet.setOps, h]

/-- C10: calling the set-operation dispatcher with
`set.symmetric_difference` and more than one other object raises a
`TypeError` whose message states the number of objects given
(`len(others) + 1`), and returns no result set. -/
theorem symmetric_difference_arity (a : Finset Gene) (others : List (Finset Gene))
    (h : 1 < others.length) :
    applySetOp SetOp.symdiff a others =
      Except.error ("Symmetric difference can only be calculated for two objects, "
        ++ toString (others.length + 1) ++ " were given!") := by
  match others with
  | [] => simp at h
  | [b] => simp at h
  | b :: c :: rest => rfl

/-- Witness for C10: two other objects beside the receiver (three objects in
total) make the dispatcher raise the `TypeError`. -/
theorem symmetric_difference_arity_witness :
    applySetOp SetOp.symdiff ∅ [∅, ∅] =
      Except.error ("Symmetric difference can only be calculated for two objects, "
        ++ toString (([∅, ∅] : List (Finset Gene)).length + 1) ++ " were given!") :=
  symmetric_difference_arity ∅ [∅, ∅] (by decide)

/-- Modelled from the spec: `FeatureSet.enrich_randomization` (lines 525-623)
delegates the statistics to `rnalysis.utils.enrichment_runner`, which is not
among the sources.  Per spec section 4.2 the randomization test draws `reps`
random subsets of the background and counts the draws whose attribute count is
at least as extreme as the observed one; the draws are abstracted here as the
list of per-draw attribute counts, so the number of repetitions is the length
of that list. -/
def randomizationSuccesses (draws : List ℕ) (observed : ℕ) : ℕ :=
  (draws.filter (fun d => observed ≤ d)).length

/-- Modelled from the spec: the randomization-test p-value
`p = (successes + 1) / (reps + 1)` of spec section 4.2, over exact
rationals. -/
def randomizationPval (draws : List ℕ) (observed : ℕ) : ℚ :=
  ((randomizationSuccesses draws observed : ℚ) + 1) / ((draws.length : ℚ) + 1)

/-- C2: with `s` the number of draws at least as extreme as observed among
`reps ≥ 1` repetitions, the randomization test returns `(s + 1) / (reps + 1)`,
which is strictly positive and at most 1. -/
theorem randomization_pval_bounds (draws : List ℕ) (observed : ℕ)
    (hreps : 1 ≤ draws.length) :
    randomizationPval draws observed =
      ((randomizationSuccesses draws observed : ℚ) + 1) / ((draws.length : ℚ) + 1) ∧
    0 < randomizationPval draws observed ∧ randomizationPval draws observed ≤ 1 := by
  have hden : (0 : ℚ) < (draws.length : ℚ) + 1 := by positivity
  have hnum : (0 : ℚ) < (randomizationSuccesses draws observed : ℚ) + 1 := by positivity
  refine ⟨rfl, div_pos hnum hden, ?_⟩
  rw [randomizationPval, div_le_one hden]
  have hle : randomizationSuccesses draws observed ≤ draws.length :=
    List.length_filter_le _ _
  have : (randomizationSuccesses draws observed : ℚ) ≤ (draws.length : ℚ) := by
    exact_mod_cast hle
  linarith

/-- Witness for C2: two repetitions, one of them at least as extreme as the
observed count of 1, give p-value 2/3 ∈ (0, 1]. -/
theorem randomization_pval_bounds_witness :
    randomizationPval [2, 0] 1 =
      ((randomizationSuccesses [2, 0] 1 : ℚ) + 1) / ((([2, 0] : List ℕ).length : ℚ) + 1) ∧
    0 < randomizationPval [2, 0] 1 ∧ randomizationPval [2, 0] 1 ≤ 1 :=
  randomization_pval_bounds [2, 0] 1 (by decide)

/-- Modelled from the spec: the biotype argument of the enrichment entry
points.  The string `all` (the default of `FeatureSet.user_defined_enrichment`,
lines 625-727) means no biotype filtering; anything else filters the biotype
reference table to the listed biotype labels. -/
inductive BiotypeSpec where
  | all
  | byLabels (labels : List String)
  deriving DecidableEq

/-- Does a biotype specifier admit a gene with the given biotype label? -/
def BiotypeSpec.admits : BiotypeSpec → String → Bool
  | .all, _ => true
  | .byLabels labels, b => labels.contains b

/-- Modelled from the spec: the configuration an enrichment run receives —
the test set, an optional explicit background set, and the biotype
specifier. -/
structure RunnerConfig where
  genes : Finset Gene
  background_genes : Option (Finset Gene)
  biotype : BiotypeSpec
  alpha : ℚ

/-- Modelled from the spec: the fatal error taxonomy of spec section 7; the
claims here only need `ConfigurationError`. -/
inductive EnrichmentError where
  | configurationError (msg : String)
  deriving DecidableEq

/-- Modelled from the spec: validation of an enrichment run, performed before
any computation.  Supplying both an explicit background set and a biotype
filter is a `ConfigurationError`, as is a biotype filter matching zero genes
of the biotype reference table (spec section 4.1). -/
def validateConfig (cfg : RunnerConfig) (biotypeTable : List (Gene × String)) :
    Except EnrichmentError Unit :=
  if cfg.background_genes.isSome = true ∧ cfg.biotype ≠ BiotypeSpec.all then
    Except.error (EnrichmentError.configurationError
      "background_genes and biotype are mutually exclusive")
  else if cfg.biotype ≠ BiotypeSpec.all ∧
      (biotypeTable.filter (fun gb => cfg.biotype.admits gb.2)).isEmpty = true then
    Except.error (EnrichmentError.configurationError
      "the biotype filter matches zero genes")
  else
    Except.ok ()

/-- Modelled from the spec: an enrichment run validates its configuration
first and only then computes; a fatal validation error aborts the run with no
results table, whatever the remaining computation would have produced (the
computation is abstracted as an arbitrary function `compute`). -/
def runEnrichment {α : Type} (cfg : RunnerConfig) (biotypeTable : List (Gene × String))
    (compute : RunnerConfig → α) : Except EnrichmentError α :=
  match validateConfig cfg biotypeTable with
  | Except.error e => Except.error e
  | Except.ok _ => Except.ok (compute cfg)

/-- C4: a run configured with both an explicit background set and a biotype
filter fails with a `ConfigurationError` raised by validation, before any
computation, and returns no (partial) results table. -/
theorem both_background_and_biotype_fails {α : Type} (cfg : RunnerConfig)
    (biotypeTable : List (Gene × String)) (compute : RunnerConfig → α)
    (hbg : cfg.background_genes.isSome = true) (hbio : cfg.biotype ≠ BiotypeSpec.all) :
    runEnrichment cfg biotypeTable compute =
      Except.error (EnrichmentError.configurationError
        "background_genes and biotype are mutually exclusive") ∧
    ∀ table, runEnrichment cfg biotypeTable compute ≠ Except.ok table := by
  have hval : validateConfig cfg biotypeTable =
      Except.error (EnrichmentError.configurationError
        "background_genes and biotype are mutually exclusive") := by
    rw [validateConfig, if_pos ⟨hbg, hbio⟩]
  constructor
  · rw [runEnrichment, hval]
  · intro table
    rw [runEnrichment, hval]
    intro hcontra
    cases hcontra

/-- Witness for C4: an explicit background set together with a
`protein_coding` biotype filter aborts the run with a `ConfigurationError`. -/
theorem both_background_and_biotype_fails_witness :
    runEnrichment ⟨∅, some ∅, BiotypeSpec.byLabels ["protein_coding"], 1 / 20⟩ []
        (fun _ => (0 : ℕ)) =
      Except.error (EnrichmentError.configurationError
        "background_genes and biotype are mutually exclusive") ∧
    ∀ table, runEnrichment ⟨∅, some ∅, BiotypeSpec.byLabels ["protein_coding"], 1 / 20⟩ []
        (fun _ => (0 : ℕ)) ≠ Except.ok table :=
  both_background_and_biotype_fails
    ⟨∅, some ∅, BiotypeSpec.byLabels ["protein_coding"], 1 / 20⟩ [] (fun _ => (0 : ℕ))
    (by decide) (by decide)

/-- Modelled from the spec: the statistical test library lives in
`rnalysis.utils.enrichment_runner`, which is not among the sources.  Spec
section 4.2 describes both the hypergeometric test and the Fisher exact test
through the hypergeometric distribution: this is its probability mass
function, over exact rationals — the probability of drawing exactly `k`
successes in `n` draws without replacement from a population of size `M`
containing `N` successes. -/
def hypergeomPMF (M n N k : ℕ) : ℚ :=
  ((N.choose k * (M - N).choose (n - k) : ℕ) : ℚ) / ((M.choose n : ℕ) : ℚ)

/-- Modelled from the spec: the lower cumulative tail `P(draw ≤ X)`. -/
def hypergeomCDF (M n N X : ℕ) : ℚ :=
  ((List.range (X + 1)).map (hypergeomPMF M n N)).sum

/-- Modelled from the spec: the upper cumulative tail `P(draw ≥ X)`, summing
the mass function for `k` from `X` to `n`. -/
def hypergeomSF (M n N X : ℕ) : ℚ :=
  ((List.range' X (n + 1 - X)).map (hypergeomPMF M n N)).sum

/-- Modelled from the spec: the hypergeometric test of spec section 4.2 for
background size `M`, test-set size `n`, attribute count `N` in the background
and `X` in the test set — the reported two-sided p-value is the minimum of
the two one-sided tails, doubled and capped at 1. -/
def hypergeomPval (M n N X : ℕ) : ℚ :=
  min 1 (2 * min (hypergeomCDF M n N X) (hypergeomSF M n N X))

/-- Modelled from the spec: the Fisher exact test of spec section 4.2 on a
2x2 contingency table — `a` the in-attribute genes of the test set, `b` the
rest of the test set, `c` the in-attribute genes of the background outside
the test set, `d` the rest of the background — with the two-sided p-value
computed exactly via the cumulative tails of the hypergeometric distribution
whose parameters are the margins of the table. -/
def fisherExactPval (a b c d : ℕ) : ℚ :=
  hypergeomPval (a + b + c + d) (a + b) (a + c) a

/-- C3: on the 2x2 contingency table built from background size `M`, test-set
size `n`, attribute count `N` in the background and `X` in the test set, the
Fisher exact test returns exactly the same p-value as the hypergeometric
test with those parameters. -/
theorem fisher_eq_hypergeom (M n N X : ℕ) (hXn : X ≤ n) (hXN : X ≤ N)
    (hnM : n ≤ M) (hNM : N ≤ M) (hd : n + N ≤ M + X) :
    fisherExactPval X (n - X) (N - X) (M + X - n - N) = hypergeomPval M n N X := by
  rw [fisherExactPval]
  rw [show X + (n - X) + (N - X) + (M + X - n - N) = M by omega]
  rw [show X + (n - X) = n by omega]
  rw [show X + (N - X) = N by omega]

/-- Witness for C3: the table built from `M = 10`, `n = 5`, `N = 3`, `X = 2`
is `(2, 3, 1, 4)` and both tests agree on it. -/
theorem fisher_eq_hypergeom_witness :
    fisherExactPval 2 3 1 4 = hypergeomPval 10 5 3 2 :=
  fisher_eq_hypergeom 10 5 3 2 (by decide) (by decide) (by decide) (by decide) (by decide)

/-- Modelled from the spec: the annotation propagator of spec section 4.3
lives in `rnalysis.utils.enrichment_runner`, which is not among the sources.
Following spec section 9, the DAG is an arena of term nodes referenced by
index, each child index strictly below its parent (a topological indexing,
which also encodes acyclicity); each node carries its directly annotated
genes and the significance flag its own test produced. -/
structure GODag where
  children : ℕ → List ℕ
  sig : ℕ → Bool
  directAnn : ℕ → Finset Gene
  children_lt : ∀ i j, j ∈ children i → j < i

/-- Union of a list of finite gene sets. -/
def unionList (l : List (Finset Gene)) : Finset Gene :=
  l.foldr (fun x y => x ∪ y) ∅

theorem mem_unionList {x : Gene} {l : List (Finset Gene)} :
    x ∈ unionList l ↔ ∃ s ∈ l, x ∈ s := by
  induction l with
  | nil => simp [unionList]
  | cons a t ih => simp [unionList, Finset.mem_union, ih.symm]

/-- Modelled from the spec: `classic` propagation — a node's annotated-gene
set is the union of its own direct annotations and all its descendant nodes'
sets (full propagation towards the root). -/
def classicGenes (d : GODag) (i : ℕ) : Finset Gene :=
  d.directAnn i ∪ unionList ((d.children i).attach.map (fun c => classicGenes d c.1))
termination_by i
decreasing_by exact d.children_lt i c.1 c.2

/-- Modelled from the spec: `elim` propagation — as `classic`, but the upward
traversal halts through any node that was itself found significant after its
own test, so the genes a significant child explains are not passed further
up. -/
def elimGenes (d : GODag) (i : ℕ) : Finset Gene :=
  d.directAnn i ∪
    unionList (((d.children i).filter (fun j => !d.sig j)).attach.map
      (fun c => elimGenes d c.1))
termination_by i
decreasing_by exact d.children_lt i c.1 (List.mem_of_mem_filter c.2)

theorem elimGenes_subset_classicGenes (d : GODag) (i : ℕ) :
    elimGenes d i ⊆ classicGenes d i := by
  induction i using Nat.strong_induction_on with
  | _ i ih =>
    intro x hx
    rw [elimGenes] at hx
    rw [classicGenes]
    rcases Finset.mem_union.1 hx with hdir | hrec
    · exact Finset.mem_union_left _ hdir
    · refine Finset.mem_union_right _ ?_
      rcases mem_unionList.1 hrec with ⟨s, hs, hxs⟩
      rcases List.mem_map.1 hs with ⟨c, _, rfl⟩
      have hmem : c.1 ∈ d.children i := List.mem_of_mem_filter c.2
      have hx2 : x ∈ classicGenes d c.1 := ih c.1 (d.children_lt i c.1 hmem) hxs
      exact mem_unionList.2 ⟨classicGenes d c.1,
        List.mem_map.2 ⟨⟨c.1, hmem⟩, List.mem_attach _ _, rfl⟩, hx2⟩

/-- The effective annotation count a propagation policy assigns to a term:
how many genes of the gene set under study the policy annotates to it. -/
def effectiveAnnCount (s : Finset Gene) (geneSet : Finset Gene) : ℕ :=
  (s ∩ geneSet).card

/-- C5: on every DAG and gene set, the effective annotation count `elim`
propagation assigns to a term never exceeds the count `classic` assigns to
the same term. -/
theorem elim_count_le_classic_count (d : GODag) (geneSet : Finset Gene) (t : ℕ) :
    effectiveAnnCount (elimGenes d t) geneSet ≤
      effectiveAnnCount (classicGenes d t) geneSet :=
  Finset.card_le_card
    (Finset.inter_subset_inter (elimGenes_subset_classicGenes d t)
      (Finset.Subset.refl geneSet))

/-- Modelled from the spec: the Benjamini-Hochberg corrector of spec section
4.4 lives in `rnalysis.utils.enrichment_runner`, which is not among the
sources.  The raw p-values are paired with their input positions and sorted
ascending; sorting the pairs lexicographically makes the sort stable, so ties
in raw p-value are broken by input order as the spec requires. -/
def bhSortedPairs (ps : List ℚ) : List (ℕ × ℚ) :=
  ps.enum.mergeSort (fun a b => decide (a.2 < b.2 ∨ (a.2 = b.2 ∧ a.1 ≤ b.1)))

/-- The ascending raw p-values (`p(1) ≤ ... ≤ p(m)` of the spec, at 0-based
positions). -/
def bhSortedPs (ps : List ℚ) : List ℚ :=
  (bhSortedPairs ps).map Prod.snd

/-- The 1-based rank of input row `k`: its position in the stable ascending
order. -/
def bhRank (ps : List ℚ) (k : ℕ) : ℕ :=
  ((bhSortedPairs ps).map Prod.fst).indexOf k + 1

/-- The step-up condition at 1-based rank `i`: `p(i) ≤ (i / m) · alpha`. -/
def bhCond (ps : List ℚ) (alpha : ℚ) (i : ℕ) : Prop :=
  (bhSortedPs ps).getD (i - 1) 0 ≤ (i : ℚ) / (ps.length : ℚ) * alpha

instance bhCondDecidable (ps : List ℚ) (alpha : ℚ) (i : ℕ) : Decidable (bhCond ps alpha i) := by
  unfold bhCond
  infer_instance

/-- The significance cutoff: the largest 1-based rank `i` with
`p(i) ≤ (i / m) · alpha`, or 0 when no rank satisfies the condition. -/
def bhCutoff (ps : List ℚ) (alpha : ℚ) : ℕ :=
  ((List.range' 1 ps.length).filter (fun i => decide (bhCond ps alpha i))).foldr max 0

/-- The value `p(j) · m / j` at 1-based rank `j`. -/
def bhRawAdj (ps : List ℚ) (j : ℕ) : ℚ :=
  (bhSortedPs ps).getD (j - 1) 0 * (ps.length : ℚ) / (j : ℚ)

/-- Minimum of `f` over the ranks `r, r + 1, ..., r + k`. -/
def rankMin (f : ℕ → ℚ) : ℕ → ℕ → ℚ
  | r, 0 => f r
  | r, k + 1 => min (f r) (rankMin f (r + 1) k)

/-- The corrected p-value at 1-based rank `r`:
`min over j ≥ r (up to m) of p(j) · m / j`, as spec section 4.4 states. -/
def bhCorrectedAt (ps : List ℚ) (r : ℕ) : ℚ :=
  rankMin (bhRawAdj ps) r (ps.length - r)

/-- One row of the corrector's output: the raw p-value, the corrected
p-value and the significance flag. -/
structure BHRow where
  rawP : ℚ
  corrected : ℚ
  significant : Bool
  deriving DecidableEq, Inhabited

/-- Modelled from the spec: the Benjamini-Hochberg corrector — one output row
per input row, emitted in the original input order (row `k` of the output
describes raw p-value `k` of the input), a hypothesis being significant
exactly when its rank is at most the cutoff. -/
def benjaminiHochberg (ps : List ℚ) (alpha : ℚ) : List BHRow :=
  (List.range ps.length).map (fun k =>
    ⟨ps.getD k 0, bhCorrectedAt ps (bhRank ps k),
      decide (bhRank ps k ≤ bhCutoff ps alpha)⟩)

theorem rankMin_succ (f : ℕ → ℚ) (r k : ℕ) :
    rankMin f r (k + 1) = min (f r) (rankMin f (r + 1) k) := rfl

theorem bhCorrectedAt_le_succ (ps : List ℚ) (r : ℕ) (h : r + 1 ≤ ps.length) :
    bhCorrectedAt ps r ≤ bhCorrectedAt ps (r + 1) := by
  unfold bhCorrectedAt
  rw [show ps.length - r = ps.length - (r + 1) + 1 by omega, rankMin_succ]
  exact min_le_right _ _

theorem bhCorrectedAt_mono (ps : List ℚ) (r s : ℕ) (hrs : r ≤ s) (hs : s ≤ ps.length) :
    bhCorrectedAt ps r ≤ bhCorrectedAt ps s := by
  induction s with
  | zero =>
      rw [Nat.le_zero.mp hrs]
  | succ s ih =>
      rcases Nat.lt_or_ge r (s + 1) with hlt | hge
      · have h1 : r ≤ s := by omega
        have h2 : s ≤ ps.length := by omega
        exact le_trans (ih h1 h2) (bhCorrectedAt_le_succ ps s hs)
      · rw [show r = s + 1 by omega]

theorem le_foldr_max {l : List ℕ} {x : ℕ} (h : x ∈ l) : x ≤ l.foldr max 0 := by
  induction l with
  | nil => cases h
  | cons a t ih =>
      rw [List.foldr_cons]
      rcases List.mem_cons.1 h with rfl | h2
      · exact le_max_left _ _
      · exact le_trans (ih h2) (le_max_right _ _)

theorem foldr_max_zero_or_mem (l : List ℕ) : l.foldr max 0 = 0 ∨ l.foldr max 0 ∈ l := by
  induction l with
  | nil => exact Or.inl rfl
  | cons a t ih =>
      rw [List.foldr_cons]
      rcases le_total a (t.foldr max 0) with h | h
      · rw [max_eq_right h]
        rcases ih with h0 | hm
        · exact Or.inl h0
        · exact Or.inr (List.mem_cons_of_mem a hm)
      · rw [max_eq_left h]
        exact Or.inr (List.mem_cons_self a t)

theorem benjaminiHochberg_getD (ps : List ℚ) (alpha : ℚ) (k : ℕ) (hk : k < ps.length) :
    (benjaminiHochberg ps alpha).getD k default =
      ⟨ps.getD k 0, bhCorrectedAt ps (bhRank ps k),
        decide (bhRank ps k ≤ bhCutoff ps alpha)⟩ := by
  have hlen : k < (benjaminiHochberg ps alpha).length := by
    simpa [benjaminiHochberg] using hk
  rw [List.getD_eq_getElem _ _ hlen]
  simp [benjaminiHochberg]

/-- C1: the Benjamini-Hochberg corrector (i) produces corrected p-values that
are monotone along the raw-p ranks — reading the ranks from the highest raw
p-value down to the lowest the corrected values never increase, i.e. they are
non-decreasing as the rank grows; (ii) the cutoff is the largest rank `i`
with `p(i) ≤ (i / m) · alpha` (0 when none exists) and a row is flagged
significant exactly when its rank is at most the cutoff; (iii) the output
keeps the rows in their original input order: the raw p-value column of the
output is the input vector itself. -/
theorem benjaminiHochberg_spec (ps : List ℚ) (alpha : ℚ) :
    (∀ r s, r ≤ s → s ≤ ps.length → bhCorrectedAt ps r ≤ bhCorrectedAt ps s) ∧
    (∀ i, i ∈ List.range' 1 ps.length → bhCond ps alpha i → i ≤ bhCutoff ps alpha) ∧
    (bhCutoff ps alpha = 0 ∨
      (bhCutoff ps alpha ∈ List.range' 1 ps.length ∧ bhCond ps alpha (bhCutoff ps alpha))) ∧
    (∀ k, k < ps.length →
      (benjaminiHochberg ps alpha).getD k default =
        ⟨ps.getD k 0, bhCorrectedAt ps (bhRank ps k),
          decide (bhRank ps k ≤ bhCutoff ps alpha)⟩) ∧
    (benjaminiHochberg ps alpha).map BHRow.rawP = ps := by
  refine ⟨bhCorrectedAt_mono ps, ?_, ?_, benjaminiHochberg_getD ps alpha, ?_⟩
  · intro i hi hcond
    exact le_foldr_max (List.mem_filter.2 ⟨hi, decide_eq_true hcond⟩)
  · rcases foldr_max_zero_or_mem
        ((List.range' 1 ps.length).filter (fun i => decide (bhCond ps alpha i))) with h | h
    · exact Or.inl h
    · have hm := List.mem_filter.1 h
      exact Or.inr ⟨hm.1, of_decide_eq_true hm.2⟩
  · refine List.ext_getElem (by simp [benjaminiHochberg]) ?_
    intro n h1 h2
    simp only [benjaminiHochberg, List.getElem_map, List.getElem_range]
    exact List.getD_eq_getElem ps 0 h2

end RNAlysis
